import Mathlib

/-!
Verification development for the MinaQueue alert-sequencing core.

The definitions below are a shallow embedding of the TypeScript source:
the queue-store mutations of `src/store/useAppStore.ts` (and the dedup
variant of `addItem` bundled in `src/hooks/useOverlayWS.ts`), the
provider-ingestion threshold of `src/App.tsx`, the display-surface
sequencer of the overlay component (`OverlayMode`, the WebSocket variant
with `scheduledItemId` / `playedItemIds`), and the alert-display
minimum-time state machine (`AlertDisplay`, the `waitForTTS` variant).
Timestamps are wall-clock milliseconds as `Nat`; amounts are `Int`.
-/

namespace MinaQueue

/-- `QueueItem['status']`: `'pending' | 'playing' | 'played'`. -/
inductive Status where
  | pending
  | playing
  | played
deriving DecidableEq, Repr

/-- `QueueItem['type']`: `'bits' | 'donation'`. -/
inductive AlertKind where
  | bits
  | donation
deriving DecidableEq, Repr

/-- The `QueueItem` record of `src/types/index.ts` (fields used by the core). -/
structure QueueItem where
  id : String
  username : String
  amount : Int
  message : String
  kind : AlertKind
  timestamp : Nat
  status : Status
deriving DecidableEq, Repr

/-- `Omit<QueueItem, 'id' | 'timestamp' | 'status'>`: the candidate shape a
provider event handler passes to `addItem`. -/
structure Candidate where
  username : String
  amount : Int
  message : String
  kind : AlertKind
deriving DecidableEq, Repr

/-- The dedup window of the dedup `addItem` variant: `now - existing.timestamp < 5000`. -/
def dedupWindowMs : Nat := 5000

/-- `updateItemStatus` of `src/store/useAppStore.ts`: maps the record whose id
matches to the requested status, unconditionally; all other records unchanged. -/
def updateItemStatus (q : List QueueItem) (id : String) (st : Status) : List QueueItem :=
  q.map fun item => if item.id = id then { item with status := st } else item

/-- `markItemPlayed` of `src/store/useAppStore.ts`: maps the record whose id
matches to status `played`. -/
def markItemPlayed (q : List QueueItem) (id : String) : List QueueItem :=
  q.map fun item => if item.id = id then { item with status := .played } else item

/-- `clearPlayed` of `src/store/useAppStore.ts`. -/
def clearPlayed (q : List QueueItem) : List QueueItem :=
  q.filter fun item => item.status ≠ .played

/-- `removeItem` of `src/store/useAppStore.ts`. -/
def removeItem (q : List QueueItem) (id : String) : List QueueItem :=
  q.filter fun item => item.id ≠ id

/-- The no-dedup `addItem` of `src/store/useAppStore.ts`: assigns a fresh id
(`crypto.randomUUID()`, passed here as `freshId`), `timestamp := Date.now()`
(passed as `now`), `status := 'pending'`, and appends at the end. -/
def addItemNoDedup (q : List QueueItem) (c : Candidate) (now : Nat) (freshId : String) :
    List QueueItem :=
  q ++ [{ id := freshId, username := c.username, amount := c.amount, message := c.message,
          kind := c.kind, timestamp := now, status := .pending }]

/-- The dedup `addItem` variant (the second store bundled in
`src/hooks/useOverlayWS.ts`): rejects as a no-op if some existing record has the
same `(username, amount, message)` triple with `now - existing.timestamp < 5000`;
otherwise assigns fresh id and timestamp, status `pending`, appended at the end. -/
def addItem (q : List QueueItem) (c : Candidate) (now : Nat) (freshId : String) :
    List QueueItem :=
  if ∃ e ∈ q, e.username = c.username ∧ e.amount = c.amount ∧ e.message = c.message ∧
      now - e.timestamp < dedupWindowMs
  then q
  else addItemNoDedup q c now freshId

/-- The provider event handler installed by `src/App.tsx`
(`if (item.amount >= settings.minBits) { addItem(item); }`): events below the
configured `minBits` threshold are dropped before the append stage. The handler
does not consult the gate. -/
def ingestProviderEvent (minBits : Int) (q : List QueueItem) (c : Candidate) (now : Nat)
    (freshId : String) : List QueueItem :=
  if c.amount ≥ minBits then addItemNoDedup q c now freshId else q

/-! ## Display-surface sequencer (the WebSocket `OverlayMode` component)

The overlay component holds `queue`/`gateOpen` React state, the refs
`lastPlayingId`, `lastCompletedTime`, `scheduledItemId`, `playedItemIds`, the
`ttsFinished` state, and a pending auto-start `setTimeout`. Its behaviour is
driven by incoming WebSocket messages (`handleMessage`) and by React effects
(auto-start arming, timer fire, the TTS effect, the gate-close cancel effect,
and `handleAlertComplete` invoked by `AlertDisplay`). We model each handler
and effect body as one event of a step function on an explicit state record.
`sentPlayed` and `ttsLog` are instrumentation: the sequence of `sendPlayed`
calls and of `synth.speak` invocations. -/

/-- `DELAY_BETWEEN_ALERTS = 2000` (the inter-alert cooldown). -/
def delayBetweenAlertsMs : Nat := 2000

/-- The minimal startup / minimum-gap delay (the literal `100` of the
auto-start effect). -/
def minimumGapMs : Nat := 100

/-- `const [volume] = useState(1)` in the overlay component: fixed at 1. -/
def overlayVolume : Nat := 1

/-- The overlay's sequencer state: React state, refs and instrumentation logs.
`armedTimer`/`armedDelay` model the pending auto-start `setTimeout` (the id it
will start, and the delay it was armed with). -/
structure OverlayState where
  queue : List QueueItem
  gateOpen : Bool
  ttsFinished : Bool
  lastPlayingId : Option String
  lastCompletedTime : Nat
  scheduledItemId : Option String
  playedItemIds : List String
  armedTimer : Option String
  armedDelay : Option Nat
  sentPlayed : List String
  ttsLog : List String
deriving DecidableEq, Repr

/-- Initial overlay state (`useState` / `useRef` initialisers). -/
def initOverlay : OverlayState :=
  { queue := [], gateOpen := true, ttsFinished := true, lastPlayingId := none,
    lastCompletedTime := 0, scheduledItemId := none, playedItemIds := [],
    armedTimer := none, armedDelay := none, sentPlayed := [], ttsLog := [] }

/-- `state.queue.find(item => item.status === 'playing')`. -/
def playingItem (q : List QueueItem) : Option QueueItem :=
  q.find? fun i => i.status = .playing

/-- `state.queue.find(item => item.status === 'pending')`. -/
def nextPendingItem (q : List QueueItem) : Option QueueItem :=
  q.find? fun i => i.status = .pending

/-- Number of records with status `playing`. -/
def countPlaying (q : List QueueItem) : Nat :=
  q.countP fun i => i.status = .playing

/-- `visibleItem = state.gateOpen && playingItem ? playingItem : null`. -/
def visibleItem (s : OverlayState) : Option QueueItem :=
  if s.gateOpen then playingItem s.queue else none

/-- The auto-start effect's delay:
`lastCompletedTime === 0 ? 100 : Math.max(100, DELAY_BETWEEN_ALERTS - timeSinceLastCompleted)`
with `timeSinceLastCompleted = now - lastCompletedTime`. -/
def computeDelay (lastCompletedTime now : Nat) : Nat :=
  if lastCompletedTime = 0 then minimumGapMs
  else max minimumGapMs (delayBetweenAlertsMs - (now - lastCompletedTime))

/-- The dependencies of the auto-start effect
(`[state.gateOpen, playingItem?.id, nextPendingItem?.id]`): when they change,
React cleans the effect up, cancelling its pending `setTimeout`. -/
def effectDeps (s : OverlayState) : Bool × Option String × Option String :=
  (s.gateOpen, (playingItem s.queue).map (·.id), (nextPendingItem s.queue).map (·.id))

/-- One event of the overlay sequencer: either an incoming WebSocket message
(`handleMessage` cases) or an effect / callback execution. -/
inductive WSEvent where
  /-- `case 'gate'` message (plus the gate-close cancel effect it triggers). -/
  | gateMsg (isOpen : Bool)
  /-- `case 'queue'` snapshot (with the keep-local-playing merge). -/
  | queueMsg (snapshot : List QueueItem)
  /-- `case 'skip'` message, at wall-clock time `now`. -/
  | skipMsg (now : Nat)
  /-- `case 'clear'` message. -/
  | clearMsg
  /-- `case 'play'` force-play message. -/
  | playMsg (itemId : String)
  /-- `case 'alert'` message: a new item from the dashboard. -/
  | alertMsg (item : QueueItem)
  /-- A run of the auto-start effect body at wall-clock time `now`. -/
  | armEffect (now : Nat)
  /-- The auto-start `setTimeout` callback firing. -/
  | timerFire
  /-- A run of the TTS effect body. -/
  | ttsEffect
  /-- `utterance.onend`, at wall-clock time `now`. -/
  | ttsOnEnd (now : Nat)
  /-- `utterance.onerror`, at wall-clock time `now`. -/
  | ttsOnError (now : Nat)
  /-- `handleAlertComplete`, invoked by `AlertDisplay` on completion. -/
  | alertComplete
deriving DecidableEq, Repr

/-- The raw handler/effect bodies, one case per `WSEvent` (translated from the
overlay component; see each case's comment). -/
def applyEvent (e : WSEvent) (s : OverlayState) : OverlayState :=
  match e with
  | .gateMsg isOpen =>
      -- `setState(prev => ({ ...prev, gateOpen: message.isOpen }))`; when the
      -- gate transitions open→closed, the cancel effect runs:
      -- `window.speechSynthesis.cancel(); setTtsFinished(true)`.
      let s1 := { s with gateOpen := isOpen }
      if s.gateOpen ∧ isOpen = false then { s1 with ttsFinished := true } else s1
  | .queueMsg snapshot =>
      -- accept the dashboard snapshot, but keep the locally playing item
      -- playing while the dashboard still has it as pending
      let currentPlayingId := (playingItem s.queue).map (·.id)
      { s with queue := snapshot.map fun item =>
          if some item.id = currentPlayingId ∧ item.status = .pending
          then { item with status := .playing } else item }
  | .skipMsg now =>
      { s with ttsFinished := true, lastCompletedTime := now, scheduledItemId := none,
               queue := s.queue.map fun item =>
                 if item.status = .playing then { item with status := .played } else item,
               lastPlayingId := none }
  | .clearMsg =>
      { s with queue := s.queue.filter fun item => item.status ≠ .pending }
  | .playMsg itemId =>
      { s with queue := s.queue.map fun item =>
          if item.id = itemId then { item with status := .playing } else item }
  | .alertMsg item =>
      { s with queue := s.queue ++ [item] }
  | .armEffect now =>
      -- the auto-start effect body
      if ¬ s.gateOpen ∨ (playingItem s.queue).isSome then s
      else
        match nextPendingItem s.queue with
        | none => s
        | some p =>
          if s.scheduledItemId = some p.id then s
          else if p.id ∈ s.playedItemIds then
            -- redelivery guard: mark played locally and notify the dashboard,
            -- without scheduling a presentation
            { s with queue := s.queue.map fun item =>
                       if item.id = p.id then { item with status := .played } else item,
                     sentPlayed := s.sentPlayed ++ [p.id] }
          else
            { s with scheduledItemId := some p.id, armedTimer := some p.id,
                     armedDelay := some (computeDelay s.lastCompletedTime now) }
  | .timerFire =>
      match s.armedTimer with
      | none => s
      | some itemId =>
        { s with ttsFinished := false,
                 queue := s.queue.map fun item =>
                   if item.id = itemId then { item with status := .playing } else item,
                 armedTimer := none, armedDelay := none }
  | .ttsEffect =>
      match playingItem s.queue with
      | none => s
      | some p =>
        if ¬ s.gateOpen then s
        else if s.lastPlayingId = some p.id ∨ p.id ∈ s.playedItemIds then s
        else
          let s1 := { s with lastPlayingId := some p.id,
                             playedItemIds := p.id :: s.playedItemIds }
          if overlayVolume > 0 ∧ p.message ≠ "" then { s1 with ttsLog := s1.ttsLog ++ [p.id] }
          else { s1 with ttsFinished := true }
  | .ttsOnEnd now =>
      -- record the completion time, mark TTS finished, and notify the
      -- dashboard that the (captured) playing item finished speaking
      let s1 := { s with lastCompletedTime := now, ttsFinished := true }
      match s.lastPlayingId with
      | some itemId => { s1 with sentPlayed := s1.sentPlayed ++ [itemId] }
      | none => s1
  | .ttsOnError now =>
      { s with lastCompletedTime := now, ttsFinished := true }
  | .alertComplete =>
      let s1 := { s with ttsFinished := true, scheduledItemId := none }
      match playingItem s.queue with
      | some p =>
        { s1 with queue := s1.queue.map fun item =>
                    if item.id = p.id then { item with status := .played } else item,
                  sentPlayed := s1.sentPlayed ++ [p.id], lastPlayingId := none }
      | none => { s1 with lastPlayingId := none }

/-- One sequencer step: the handler/effect body, followed by React's effect
cleanup, which cancels the pending auto-start `setTimeout` whenever the
effect's dependencies changed. -/
def step (e : WSEvent) (s : OverlayState) : OverlayState :=
  let s' := applyEvent e s
  if effectDeps s' = effectDeps s then s'
  else { s' with armedTimer := none, armedDelay := none }

/-- States of the overlay reachable from the initial state under any sequence
of messages and effect runs. -/
inductive Reach : OverlayState → Prop where
  | init : Reach initOverlay
  | next (e : WSEvent) {s : OverlayState} : Reach s → Reach (step e s)

/-- The event alphabet of the claim's quantification ("append, selection,
force-play, skip, clear, gate-change and completion events") without
force-play: `alertMsg` appends (as the dashboard produces it: status `pending`,
fresh id), and `playMsg` / `queueMsg` are excluded. -/
def seqEvent (s : OverlayState) : WSEvent → Prop
  | .playMsg _ => False
  | .queueMsg _ => False
  | .alertMsg item => item.status = .pending ∧ item.id ∉ s.queue.map (·.id)
  | _ => True

/-- Reachability under the restricted alphabet `seqEvent`. -/
inductive ReachSeq : OverlayState → Prop where
  | init : ReachSeq initOverlay
  | next (e : WSEvent) {s : OverlayState} : ReachSeq s → seqEvent s e → ReachSeq (step e s)

/-! ## The `AlertDisplay` minimum-time machine (`waitForTTS` variant)

`AlertDisplay` keeps `displayState : 'hidden' | 'visible' | 'exiting'`,
`minTimeElapsed`, `currentItemRef`, and a `setTimeout` for the minimum display
time (`settings.alertDuration`). The completion-check effect runs
`completeAlert` only when `displayState === 'visible' && minTimeElapsed &&
(!waitForTTS || ttsFinished)`; `completeAlert` enters `'exiting'` and, after
the exit animation, hides and calls `onAlertComplete` (which in the overlay
marks the playing record `played` and reports completion). The overlay passes
`waitForTTS = true`, and its `utterance.onend` / `utterance.onerror` handlers
both set `ttsFinished` to `true`. We add a wall clock `now`, the armed
min-timer deadline, and a `completions` log `(itemId, deadline, time)` as
instrumentation. -/

/-- `AlertDisplay`'s `DisplayState`. -/
inductive DState where
  | hidden
  | visible
  | exiting
deriving DecidableEq, Repr

/-- `waitForTTS={true}` as passed by the overlay component. -/
def waitForTTS : Bool := true

/-- The display machine's state. `minDeadline` is the absolute time at which
the armed minimum-display timer fires (show time + `alertDuration`);
`completions` records each `onAlertComplete` call as
`(item id, the minimum-time deadline of that showing, completion time)`. -/
structure DisplayMachine where
  displayState : DState
  minTimeElapsed : Bool
  currentItem : Option String
  minTimerArmed : Bool
  minDeadline : Nat
  ttsFinished : Bool
  completions : List (String × Nat × Nat)
  now : Nat
deriving DecidableEq, Repr

/-- Initial display machine state. -/
def dInit : DisplayMachine :=
  { displayState := .hidden, minTimeElapsed := false, currentItem := none,
    minTimerArmed := false, minDeadline := 0, ttsFinished := true,
    completions := [], now := 0 }

/-- The item-change effect's hide branch (`!item || item.status !== 'playing'`),
at wall-clock time `t`: clear the min-time timer and, if not already hidden,
hide and reset. -/
def hideBranch (s : DisplayMachine) (t : Nat) : DisplayMachine :=
  if s.displayState ≠ .hidden then
    { s with minTimerArmed := false, displayState := .hidden, currentItem := none,
             minTimeElapsed := false, now := t }
  else { s with minTimerArmed := false, now := t }

/-- Events of the display machine; each carries the wall-clock time at which
it occurs. -/
inductive DEvent where
  /-- The item-change effect runs with the (possibly absent) `item` prop. -/
  | itemChange (item : Option QueueItem) (t : Nat)
  /-- The minimum-display `setTimeout` fires (only once `t` has reached the
  armed deadline). -/
  | minTimerFire (t : Nat)
  /-- The overlay sets `ttsFinished := false` when a presentation starts. -/
  | ttsStartSig (t : Nat)
  /-- `utterance.onend` sets `ttsFinished := true`. -/
  | ttsEndSig (t : Nat)
  /-- `utterance.onerror` sets `ttsFinished := true` (error treated as finish). -/
  | ttsErrorSig (t : Nat)
  /-- The completion-check effect runs. -/
  | completeCheck (t : Nat)
  /-- The exit animation's `setTimeout` fires: hide and call `onAlertComplete`. -/
  | exitDone (t : Nat)
deriving DecidableEq, Repr

/-- The time an event occurs at. -/
def DEvent.time : DEvent → Nat
  | .itemChange _ t => t
  | .minTimerFire t => t
  | .ttsStartSig t => t
  | .ttsEndSig t => t
  | .ttsErrorSig t => t
  | .completeCheck t => t
  | .exitDone t => t

/-- One step of the display machine with minimum display duration `dur`
(`settings.alertDuration`). -/
def dstep (dur : Nat) (e : DEvent) (s : DisplayMachine) : DisplayMachine :=
  match e with
  | .itemChange item t =>
      match item with
      | none => hideBranch s t
      | some it =>
        if it.status ≠ .playing then hideBranch s t
        else if some it.id = s.currentItem then { s with now := t }
        else
          -- new item: show it and arm the minimum-display timer
          { s with currentItem := some it.id, displayState := .visible,
                   minTimeElapsed := false, minTimerArmed := true,
                   minDeadline := t + dur, now := t }
  | .minTimerFire t =>
      if s.minTimerArmed ∧ s.minDeadline ≤ t then
        { s with minTimeElapsed := true, minTimerArmed := false, now := t }
      else { s with now := t }
  | .ttsStartSig t => { s with ttsFinished := false, now := t }
  | .ttsEndSig t => { s with ttsFinished := true, now := t }
  | .ttsErrorSig t => { s with ttsFinished := true, now := t }
  | .completeCheck t =>
      if s.displayState = .visible ∧ s.minTimeElapsed ∧ (waitForTTS = false ∨ s.ttsFinished)
      then { s with displayState := .exiting, now := t }
      else { s with now := t }
  | .exitDone t =>
      if s.displayState = .exiting then
        { s with displayState := .hidden, currentItem := none, minTimeElapsed := false,
                 now := t,
                 completions := s.completions ++ [(s.currentItem.getD "", s.minDeadline, t)] }
      else { s with now := t }

/-- Display machine states reachable under time-monotone event sequences. -/
inductive DReach (dur : Nat) : DisplayMachine → Prop where
  | init : DReach dur dInit
  | next (e : DEvent) {s : DisplayMachine} :
      DReach dur s → s.now ≤ e.time → DReach dur (dstep dur e s)

/-! ## Concrete instances used by counterexamples and witnesses -/

/-- A concrete pending alert. -/
def itemA : QueueItem := ⟨"a", "Ann", 500, "hi", .bits, 0, .pending⟩

/-- A second concrete pending alert. -/
def itemB : QueueItem := ⟨"b", "Bob", 300, "yo", .bits, 1, .pending⟩

/-- A concrete already-played record. -/
def c4Item : QueueItem := ⟨"x", "Uma", 100, "msg", .bits, 0, .played⟩

/-- A concrete candidate matching `itemA`'s `(username, amount, message)` triple. -/
def candA : Candidate := ⟨"Ann", 500, "hi", .bits⟩

/-- A concrete state with one playing, one pending and one played record. -/
def clearDemoState : OverlayState :=
  { initOverlay with queue := [{ itemA with status := .playing }, itemB, c4Item] }

/-- A reachable state in which `itemA` is playing and the gate is open:
append `itemA`, arm it, fire the auto-start timer. -/
def gatePlayingState : OverlayState :=
  step .timerFire (step (.armEffect 5) (step (.alertMsg itemA) initOverlay))

/-- A concrete idle state with one pending item, 1000 ms after a completion. -/
def armDemoState : OverlayState :=
  { initOverlay with queue := [itemA], lastCompletedTime := 1000 }

/-- All records of the queue carry distinct ids. -/
def UniqueIds (q : List QueueItem) : Prop :=
  q.Pairwise fun a b => a.id ≠ b.id

/-- The mutual-exclusion invariant of the restricted system: at most one
record is `playing`, a pending auto-start timer implies nothing is playing,
and ids are unique. -/
def SeqInv (s : OverlayState) : Prop :=
  countPlaying s.queue ≤ 1 ∧
  (s.armedTimer.isSome = true → countPlaying s.queue = 0) ∧
  UniqueIds s.queue

/-- The state reached by appending two pending alerts, auto-starting the
first, and then force-playing the second. -/
def forcePlayCexState : OverlayState :=
  step (.playMsg "b") (step .timerFire (step (.armEffect 5)
    (step (.alertMsg itemB) (step (.alertMsg itemA) initOverlay))))

/-- The TTS-log invariant: every id that was ever spoken is recorded in
`playedItemIds`, and no id was spoken twice. -/
def TtsInv (s : OverlayState) : Prop :=
  (∀ x ∈ s.ttsLog, x ∈ s.playedItemIds) ∧ s.ttsLog.Nodup

/-- A state holding `itemA` as pending while its id was already presented
(a redelivered snapshot). -/
def redeliveryState : OverlayState :=
  { initOverlay with queue := [itemA], playedItemIds := ["a"] }

/-- The display-machine invariant: `minTimeElapsed` only after the deadline of
the current showing has passed; `exiting` is only entered after the deadline;
and every recorded completion happened at or after its minimum-time deadline. -/
def DInv (s : DisplayMachine) : Prop :=
  (s.minTimeElapsed = true → s.minDeadline ≤ s.now) ∧
  (s.displayState = .exiting → s.minDeadline ≤ s.now) ∧
  (∀ c ∈ s.completions, c.2.1 ≤ c.2.2)

/-- A concrete visible display state, shown at time 1000 with a 5000 ms
minimum, whose timer has fired and whose TTS has finished. -/
def dVis : DisplayMachine :=
  { dInit with displayState := .visible, minTimeElapsed := true, ttsFinished := true,
               currentItem := some "a", minDeadline := 6000, now := 6000 }

/-! ## Theorems -/

/-- `{ i with status := st } = i` once `i` already has status `st`. -/
theorem setStatus_self {st : Status} (i : QueueItem) (h : i.status = st) :
    { i with status := st } = i := by
  cases i with
  | mk id u a m k t s => cases h; rfl

/-- C4 counterexample: the claim says a backward transition request
(`played → pending`) is a no-op, but `updateItemStatus` applies it: on a
one-record queue whose record is `played`, requesting `pending` yields a
changed queue with the record `pending` again. -/
theorem update_status_cex :
    updateItemStatus [c4Item] "x" .pending = [{ c4Item with status := .pending }] ∧
    ¬ updateItemStatus [c4Item] "x" .pending = [c4Item] := by
  constructor
  · rfl
  · decide

/-- C4 (amended): `updateItemStatus` applies the requested status to every
record whose id matches, unconditionally — including backward transitions —
while a request for an unknown id is a no-op (and no error is raised), and
records with other ids are untouched. -/
theorem update_status_unconditional :
    (∀ (q : List QueueItem) (id : String) (st : Status),
        (∀ i ∈ q, i.id ≠ id) → updateItemStatus q id st = q) ∧
    (∀ (q : List QueueItem) (id : String) (st : Status) (i : QueueItem),
        i ∈ q → i.id ≠ id → i ∈ updateItemStatus q id st) ∧
    (∀ (q : List QueueItem) (id : String) (st : Status) (i : QueueItem),
        i ∈ q → i.id = id → { i with status := st } ∈ updateItemStatus q id st) := by
  refine ⟨?_, ?_, ?_⟩
  · intro q id st h
    conv_rhs => rw [← List.map_id q]
    exact List.map_congr_left fun i hi => by simp [h i hi]
  · intro q id st i hi hne
    exact List.mem_map.2 ⟨i, hi, by simp [hne]⟩
  · intro q id st i hi hid
    exact List.mem_map.2 ⟨i, hi, by simp [hid]⟩

/-- Witness for `update_status_unconditional` at concrete inputs. -/
theorem update_status_unconditional_witness :
    updateItemStatus [c4Item] "zzz" .pending = [c4Item] ∧
    c4Item ∈ updateItemStatus [c4Item] "zzz" .pending ∧
    { itemA with status := .played } ∈ updateItemStatus [itemA] "a" .played :=
  ⟨update_status_unconditional.1 [c4Item] "zzz" .pending (by decide),
   update_status_unconditional.2.1 [c4Item] "zzz" .pending c4Item (by decide) (by decide),
   update_status_unconditional.2.2 [itemA] "a" .played itemA (by decide) (by decide)⟩

/-- C8: delivering `completed(id)` twice leaves the queue store exactly as
delivering it once (`markItemPlayed` is idempotent); marking an id whose
record is already `played` (or absent) changes nothing, and records with
other ids are never affected. -/
theorem idempotent_completion :
    (∀ (q : List QueueItem) (id : String),
        markItemPlayed (markItemPlayed q id) id = markItemPlayed q id) ∧
    (∀ (q : List QueueItem) (id : String),
        (∀ i ∈ q, i.id = id → i.status = .played) → markItemPlayed q id = q) ∧
    (∀ (q : List QueueItem) (id : String) (i : QueueItem),
        i ∈ q → i.id ≠ id → i ∈ markItemPlayed q id) := by
  refine ⟨?_, ?_, ?_⟩
  · intro q id
    unfold markItemPlayed
    rw [List.map_map]
    exact List.map_congr_left fun i _ => by by_cases h : i.id = id <;> simp [h]
  · intro q id h
    unfold markItemPlayed
    conv_rhs => rw [← List.map_id q]
    refine List.map_congr_left fun i hi => ?_
    simp only [id_eq]
    by_cases hid : i.id = id
    · rw [if_pos hid]
      exact setStatus_self i (h i hi hid)
    · rw [if_neg hid]
  · intro q id i hi hne
    exact List.mem_map.2 ⟨i, hi, by simp [hne]⟩

/-- Witness for `idempotent_completion` at concrete inputs. -/
theorem idempotent_completion_witness :
    markItemPlayed [c4Item] "x" = [c4Item] ∧
    itemA ∈ markItemPlayed [itemA] "zzz" :=
  ⟨idempotent_completion.2.1 [c4Item] "x" (by decide),
   idempotent_completion.2.2 [itemA] "zzz" itemA (by decide) (by decide)⟩

/-- C5: appending a candidate whose `(username, amount, message)` triple
matches an existing record created within the 5000 ms dedup window is a
no-op; if every matching record is at least 5000 ms old, the candidate is
appended at the end with the fresh id, the current timestamp, and status
`pending`. -/
theorem dedup_window :
    (∀ (q : List QueueItem) (c : Candidate) (now : Nat) (freshId : String),
        (∃ e ∈ q, e.username = c.username ∧ e.amount = c.amount ∧ e.message = c.message ∧
            now - e.timestamp < 5000) →
        addItem q c now freshId = q) ∧
    (∀ (q : List QueueItem) (c : Candidate) (now : Nat) (freshId : String),
        (∀ e ∈ q, e.username = c.username → e.amount = c.amount → e.message = c.message →
            5000 ≤ now - e.timestamp) →
        addItem q c now freshId =
          q ++ [{ id := freshId, username := c.username, amount := c.amount,
                  message := c.message, kind := c.kind, timestamp := now,
                  status := .pending }]) := by
  constructor
  · intro q c now freshId h
    simp only [addItem, dedupWindowMs]
    exact if_pos h
  · intro q c now freshId h
    simp only [addItem, dedupWindowMs, addItemNoDedup]
    apply if_neg
    rintro ⟨e, he, h1, h2, h3, h4⟩
    exact absurd h4 (not_lt.2 (h e he h1 h2 h3))

/-- Witness for `dedup_window`: the same triple appended 3000 ms later is
suppressed; appended 6000 ms later it yields a second record. -/
theorem dedup_window_witness :
    addItem [itemA] candA 3000 "i2" = [itemA] ∧
    addItem [itemA] candA 6000 "i3" =
      [itemA] ++ [{ id := "i3", username := candA.username, amount := candA.amount,
                    message := candA.message, kind := candA.kind, timestamp := 6000,
                    status := .pending }] :=
  ⟨dedup_window.1 [itemA] candA 3000 "i2" ⟨itemA, by decide, by decide, by decide, by decide,
      by decide⟩,
   dedup_window.2 [itemA] candA 6000 "i3" (by decide)⟩

/-- C10: the provider event handler drops any event whose amount is strictly
below `minBits` (the queue is unchanged) and passes any event with amount at
least `minBits` to the store's `addItem`, regardless of any other state. -/
theorem min_bits_threshold :
    ∀ (minBits : Int) (q : List QueueItem) (c : Candidate) (now : Nat) (freshId : String),
      (c.amount < minBits → ingestProviderEvent minBits q c now freshId = q) ∧
      (minBits ≤ c.amount →
        ingestProviderEvent minBits q c now freshId = addItemNoDedup q c now freshId) := by
  intro minBits q c now freshId
  constructor
  · intro h
    simp [ingestProviderEvent, not_le.2 h]
  · intro h
    simp [ingestProviderEvent, h]

/-- Witness for `min_bits_threshold` at concrete inputs (threshold 200). -/
theorem min_bits_threshold_witness :
    ingestProviderEvent 200 [] ⟨"Uma", 100, "msg", .bits⟩ 5 "i" = [] ∧
    ingestProviderEvent 200 [] candA 5 "i" = addItemNoDedup [] candA 5 "i" :=
  ⟨(min_bits_threshold 200 [] ⟨"Uma", 100, "msg", .bits⟩ 5 "i").1 (by decide),
   (min_bits_threshold 200 [] candA 5 "i").2 (by decide)⟩

/-! ### Step/field bookkeeping: the effect cleanup in `step` only ever touches
the armed timer, so every other field of `step e s` is that of `applyEvent e s`. -/

theorem step_queue (e : WSEvent) (s : OverlayState) :
    (step e s).queue = (applyEvent e s).queue := by
  simp only [step]
  split <;> rfl

theorem step_gateOpen (e : WSEvent) (s : OverlayState) :
    (step e s).gateOpen = (applyEvent e s).gateOpen := by
  simp only [step]
  split <;> rfl

theorem step_ttsFinished (e : WSEvent) (s : OverlayState) :
    (step e s).ttsFinished = (applyEvent e s).ttsFinished := by
  simp only [step]
  split <;> rfl

theorem step_sentPlayed (e : WSEvent) (s : OverlayState) :
    (step e s).sentPlayed = (applyEvent e s).sentPlayed := by
  simp only [step]
  split <;> rfl

theorem step_ttsLog (e : WSEvent) (s : OverlayState) :
    (step e s).ttsLog = (applyEvent e s).ttsLog := by
  simp only [step]
  split <;> rfl

theorem step_playedItemIds (e : WSEvent) (s : OverlayState) :
    (step e s).playedItemIds = (applyEvent e s).playedItemIds := by
  simp only [step]
  split <;> rfl

theorem step_scheduledItemId (e : WSEvent) (s : OverlayState) :
    (step e s).scheduledItemId = (applyEvent e s).scheduledItemId := by
  simp only [step]
  split <;> rfl

theorem step_of_apply_eq_self {e : WSEvent} {s : OverlayState}
    (h : applyEvent e s = s) : step e s = s := by
  simp [step, h]

/-- C9: the `clear` command removes exactly the `pending` records: the
resulting queue is the filter of the old one, every non-pending record (in
particular every `playing` record) survives unchanged, and everything that
survives was present before and is not `pending`. -/
theorem clear_frame (s : OverlayState) :
    (step .clearMsg s).queue = s.queue.filter (fun i => i.status ≠ .pending) ∧
    (∀ i ∈ s.queue, i.status ≠ .pending → i ∈ (step .clearMsg s).queue) ∧
    (∀ i ∈ (step .clearMsg s).queue, i ∈ s.queue ∧ i.status ≠ .pending) ∧
    (∀ i ∈ s.queue, i.status = .playing → i ∈ (step .clearMsg s).queue) := by
  have hq : (step .clearMsg s).queue = s.queue.filter (fun i => i.status ≠ .pending) := by
    rw [step_queue]
    rfl
  refine ⟨hq, ?_, ?_, ?_⟩
  · intro i hi hne
    rw [hq]
    exact List.mem_filter.2 ⟨hi, by simpa using hne⟩
  · intro i hi
    rw [hq] at hi
    have h := List.mem_filter.1 hi
    exact ⟨h.1, by simpa using h.2⟩
  · intro i hi hpl
    rw [hq]
    refine List.mem_filter.2 ⟨hi, ?_⟩
    simp [hpl]

/-- Witness for `clear_frame` at a concrete state. -/
theorem clear_frame_witness :
    (step .clearMsg clearDemoState).queue =
      clearDemoState.queue.filter (fun i => i.status ≠ .pending) ∧
    { itemA with status := .playing } ∈ (step .clearMsg clearDemoState).queue :=
  ⟨(clear_frame clearDemoState).1,
   (clear_frame clearDemoState).2.2.2 { itemA with status := .playing } (by decide) (by decide)⟩

/-! ### C6: gate close during presentation -/

/-- C6 counterexample: from the reachable state in which `itemA` is `playing`,
closing the gate does not force-complete it as the claim requires: afterwards
the record still has status `playing` and no completion has been reported
(`sentPlayed` is still empty). -/
theorem gate_close_cex :
    Reach (step (.gateMsg false) gatePlayingState) ∧
    playingItem gatePlayingState.queue = some { itemA with status := .playing } ∧
    (step (.gateMsg false) gatePlayingState).queue = [{ itemA with status := .playing }] ∧
    (step (.gateMsg false) gatePlayingState).sentPlayed = [] := by
  refine ⟨?_, rfl, rfl, rfl⟩
  exact Reach.next _ (Reach.next _ (Reach.next _ (Reach.next _ Reach.init)))

/-- C6 (amended): closing an open gate cancels the presentation task
(`ttsFinished` is forced true) and hides the alert instantly
(`visibleItem = none`), and any armed auto-start timer is cancelled — but the
queue is untouched: a playing record keeps status `playing` and no completion
is reported. While the gate is closed, Selection never fires (the auto-start
effect is a no-op). On reopen the TTS task is not re-invoked for the record
it already started (`lastPlayingId` guard), so the alert does not resume
mid-speech. -/
theorem gate_close_behavior :
    (∀ s : OverlayState, s.gateOpen = true →
        (step (.gateMsg false) s).ttsFinished = true ∧
        (step (.gateMsg false) s).queue = s.queue ∧
        (step (.gateMsg false) s).sentPlayed = s.sentPlayed ∧
        visibleItem (step (.gateMsg false) s) = none ∧
        (step (.gateMsg false) s).armedTimer = none) ∧
    (∀ (s : OverlayState) (now : Nat), s.gateOpen = false → step (.armEffect now) s = s) ∧
    (∀ (s : OverlayState) (p : QueueItem),
        playingItem s.queue = some p → s.lastPlayingId = some p.id →
        step .ttsEffect s = s) := by
  refine ⟨?_, ?_, ?_⟩
  · intro s h
    have happ : applyEvent (.gateMsg false) s =
        { s with gateOpen := false, ttsFinished := true } := by
      simp [applyEvent, h]
    have hdep : ¬ effectDeps (applyEvent (.gateMsg false) s) = effectDeps s := by
      rw [happ]
      simp [effectDeps, h]
    have hstep : step (.gateMsg false) s =
        { s with gateOpen := false, ttsFinished := true,
                 armedTimer := none, armedDelay := none } := by
      simp only [step]
      rw [if_neg hdep, happ]
    rw [hstep]
    exact ⟨rfl, rfl, rfl, by simp [visibleItem], rfl⟩
  · intro s now h
    apply step_of_apply_eq_self
    simp [applyEvent, h]
  · intro s p hp hlast
    apply step_of_apply_eq_self
    simp only [applyEvent, hp]
    by_cases hg : s.gateOpen
    · rw [if_neg (by simp [hg]), if_pos (Or.inl hlast)]
    · rw [if_pos (by simp [hg])]

/-- Witness for `gate_close_behavior` at concrete states. -/
theorem gate_close_behavior_witness :
    (step (.gateMsg false) gatePlayingState).queue = gatePlayingState.queue ∧
    step (.armEffect 9) (step (.gateMsg false) gatePlayingState) =
      step (.gateMsg false) gatePlayingState ∧
    step .ttsEffect (step .ttsEffect gatePlayingState) = step .ttsEffect gatePlayingState :=
  ⟨((gate_close_behavior.1 gatePlayingState rfl).2.1),
   (gate_close_behavior.2.1 (step (.gateMsg false) gatePlayingState) 9 rfl),
   (gate_close_behavior.2.2 (step .ttsEffect gatePlayingState)
      { itemA with status := .playing } rfl rfl)⟩

/-! ### C7: the arming delay -/

/-- C7: when Selection arms a pending record `p` (gate open, nothing playing,
`p` not already scheduled nor already presented), the armed delay is exactly
`computeDelay`, which equals `max 100 (2000 − elapsed)` after a previous
completion and the minimal startup delay `100` for the first-ever alert; and
re-running the effect while the same id is already scheduled is a no-op. -/
theorem arming_delay :
    (∀ (s : OverlayState) (now : Nat) (p : QueueItem),
        s.gateOpen = true → playingItem s.queue = none → nextPendingItem s.queue = some p →
        ¬ s.scheduledItemId = some p.id → p.id ∉ s.playedItemIds →
        step (.armEffect now) s =
          { s with scheduledItemId := some p.id, armedTimer := some p.id,
                   armedDelay := some (computeDelay s.lastCompletedTime now) }) ∧
    (∀ lct now : Nat, lct ≠ 0 → computeDelay lct now = max 100 (2000 - (now - lct))) ∧
    (∀ now : Nat, computeDelay 0 now = 100) ∧
    (∀ (s : OverlayState) (now : Nat) (p : QueueItem),
        s.gateOpen = true → playingItem s.queue = none → nextPendingItem s.queue = some p →
        s.scheduledItemId = some p.id →
        step (.armEffect now) s = s) := by
  refine ⟨?_, ?_, ?_, ?_⟩
  · intro s now p hg hpl hnp hsched hmem
    have happ : applyEvent (.armEffect now) s =
        { s with scheduledItemId := some p.id, armedTimer := some p.id,
                 armedDelay := some (computeDelay s.lastCompletedTime now) } := by
      simp only [applyEvent, hpl, hnp]
      rw [if_neg (by simp [hg]), if_neg hsched, if_neg hmem]
    have hdep : effectDeps
        { s with scheduledItemId := some p.id, armedTimer := some p.id,
                 armedDelay := some (computeDelay s.lastCompletedTime now) } =
        effectDeps s := rfl
    simp only [step, happ]
    rw [if_pos hdep]
  · intro lct now h
    simp [computeDelay, h, minimumGapMs, delayBetweenAlertsMs]
  · intro now
    simp [computeDelay, minimumGapMs]
  · intro s now p hg hpl hnp hsched
    apply step_of_apply_eq_self
    simp only [applyEvent, hpl, hnp]
    rw [if_neg (by simp [hg]), if_pos hsched]

/-- Witness for `arming_delay` at concrete inputs. -/
theorem arming_delay_witness :
    step (.armEffect 1500) armDemoState =
      { armDemoState with scheduledItemId := some "a", armedTimer := some "a",
                          armedDelay := some (computeDelay 1000 1500) } ∧
    computeDelay 1000 1500 = max 100 (2000 - (1500 - 1000)) ∧
    computeDelay 0 777 = 100 ∧
    step (.armEffect 1500) { armDemoState with scheduledItemId := some "a" } =
      { armDemoState with scheduledItemId := some "a" } :=
  ⟨arming_delay.1 armDemoState 1500 itemA rfl rfl rfl (by decide) (by decide),
   arming_delay.2.1 1000 1500 (by decide),
   arming_delay.2.2.1 777,
   arming_delay.2.2.2 { armDemoState with scheduledItemId := some "a" } 1500 itemA rfl rfl rfl
     rfl⟩

/-! ### C1: mutual exclusion of playback -/

theorem countPlaying_eq_zero_of (q : List QueueItem)
    (h : ∀ i ∈ q, i.status ≠ .playing) : countPlaying q = 0 :=
  List.countP_eq_zero.2 fun i hi => by simpa using h i hi

theorem playingItem_none_iff (q : List QueueItem) :
    playingItem q = none ↔ countPlaying q = 0 := by
  rw [playingItem, countPlaying, List.find?_eq_none, List.countP_eq_zero]

theorem countPlaying_map_le (q : List QueueItem) (f : QueueItem → QueueItem)
    (hf : ∀ i, (f i).status = .playing → i.status = .playing) :
    countPlaying (q.map f) ≤ countPlaying q := by
  induction q with
  | nil => simp [countPlaying]
  | cons a as ih =>
    simp only [countPlaying, List.map_cons, List.countP_cons] at ih ⊢
    have hle : (if (f a).status = Status.playing then 1 else 0) ≤
        (if a.status = Status.playing then 1 else 0) := by
      by_cases hfa : (f a).status = Status.playing
      · simp [hfa, hf a hfa]
      · simp [hfa]
    simpa using Nat.add_le_add ih hle

theorem countPlaying_map_setPlayed (q : List QueueItem) (id : String) :
    countPlaying (q.map fun i => if i.id = id then { i with status := .played } else i) ≤
      countPlaying q := by
  apply countPlaying_map_le
  intro i h
  by_cases hid : i.id = id
  · rw [if_pos hid] at h
    exact absurd h (by simp)
  · rwa [if_neg hid] at h

theorem countPlaying_skip (q : List QueueItem) :
    countPlaying (q.map fun i =>
      if i.status = .playing then { i with status := .played } else i) = 0 := by
  apply countPlaying_eq_zero_of
  intro j hj
  rcases List.mem_map.1 hj with ⟨i, _, rfl⟩
  by_cases hi : i.status = .playing
  · rw [if_pos hi]
    simp
  · rw [if_neg hi]
    exact hi

theorem countPlaying_setPlaying_le (q : List QueueItem) (id : String) :
    countPlaying (q.map fun i => if i.id = id then { i with status := .playing } else i) ≤
      countPlaying q + q.countP (fun i => i.id = id) := by
  induction q with
  | nil => simp [countPlaying]
  | cons a as ih =>
    simp only [countPlaying, List.map_cons, List.countP_cons, List.countP_map] at ih ⊢
    by_cases hid : a.id = id <;> by_cases hpa : a.status = Status.playing <;>
      simp [hid, hpa, List.countP_map] <;> omega

theorem countP_id_le_one {q : List QueueItem} (h : UniqueIds q) (id : String) :
    q.countP (fun i => i.id = id) ≤ 1 := by
  induction q with
  | nil => simp
  | cons a as ih =>
    rcases List.pairwise_cons.1 h with ⟨ha, has⟩
    rw [List.countP_cons]
    by_cases hid : a.id = id
    · have hz : as.countP (fun i => i.id = id) = 0 := by
        apply List.countP_eq_zero.2
        intro i hi
        simp only [decide_eq_true_eq]
        intro he
        exact ha i hi (hid.trans he.symm)
      simp [hz, hid]
    · have hle := ih has
      simp [hid]
      exact hle

theorem uniqueIds_map {q : List QueueItem} (f : QueueItem → QueueItem)
    (hf : ∀ i, (f i).id = i.id) (h : UniqueIds q) : UniqueIds (q.map f) := by
  rw [UniqueIds, List.pairwise_map]
  exact h.imp fun hab => by rw [hf, hf]; exact hab

theorem uniqueIds_filter {q : List QueueItem} (p : QueueItem → Bool) (h : UniqueIds q) :
    UniqueIds (q.filter p) :=
  List.Pairwise.sublist (List.filter_sublist q) h

theorem uniqueIds_append_fresh {q : List QueueItem} {item : QueueItem}
    (h : UniqueIds q) (hid : item.id ∉ q.map (·.id)) : UniqueIds (q ++ [item]) := by
  rw [UniqueIds, List.pairwise_append]
  refine ⟨h, by simp [UniqueIds], ?_⟩
  intro a ha b hb
  rcases List.mem_singleton.1 hb with rfl
  intro he
  exact hid (List.mem_map.2 ⟨a, ha, he⟩)

/-- The invariant is preserved by every step of the restricted alphabet. -/
theorem seqInv_step {s : OverlayState} (e : WSEvent) (hok : seqEvent s e)
    (h : SeqInv s) : SeqInv (step e s) := by
  obtain ⟨h1, h2, h3⟩ := h
  -- it suffices to establish the three components for `applyEvent e s`
  suffices happ : countPlaying (applyEvent e s).queue ≤ 1 ∧
      ((applyEvent e s).armedTimer.isSome = true → countPlaying (applyEvent e s).queue = 0) ∧
      UniqueIds (applyEvent e s).queue by
    obtain ⟨g1, g2, g3⟩ := happ
    unfold SeqInv step
    dsimp only
    split
    · exact ⟨g1, g2, g3⟩
    · exact ⟨g1, by simp, g3⟩
  cases e with
  | gateMsg isOpen =>
    by_cases hc : s.gateOpen = true ∧ isOpen = false
    · have happ : applyEvent (.gateMsg isOpen) s =
          { s with gateOpen := isOpen, ttsFinished := true } := by
        simp only [applyEvent]
        rw [if_pos hc]
      rw [happ]
      exact ⟨h1, h2, h3⟩
    · have happ : applyEvent (.gateMsg isOpen) s = { s with gateOpen := isOpen } := by
        simp only [applyEvent]
        rw [if_neg hc]
      rw [happ]
      exact ⟨h1, h2, h3⟩
  | queueMsg snapshot => exact False.elim hok
  | skipMsg now =>
    have hz : countPlaying ((applyEvent (.skipMsg now) s).queue) = 0 := by
      show countPlaying (s.queue.map fun i =>
        if i.status = .playing then { i with status := .played } else i) = 0
      exact countPlaying_skip s.queue
    refine ⟨by omega, fun _ => hz, ?_⟩
    show UniqueIds (s.queue.map fun i =>
      if i.status = .playing then { i with status := .played } else i)
    exact uniqueIds_map _ (fun i => by by_cases hi : i.status = .playing <;> simp [hi]) h3
  | clearMsg =>
    have hle : countPlaying ((applyEvent .clearMsg s).queue) ≤ countPlaying s.queue := by
      show countPlaying (s.queue.filter fun i => i.status ≠ .pending) ≤ countPlaying s.queue
      exact List.Sublist.countP_le _ (List.filter_sublist s.queue)
    refine ⟨by omega, fun ht => ?_, ?_⟩
    · have ht' : s.armedTimer.isSome = true := ht
      have hz := h2 ht'
      omega
    · show UniqueIds (s.queue.filter fun i => i.status ≠ .pending)
      exact uniqueIds_filter _ h3
  | playMsg itemId => exact False.elim hok
  | alertMsg item =>
    have hok' : item.status = .pending ∧ item.id ∉ s.queue.map (·.id) := hok
    obtain ⟨hst, hfresh⟩ := hok'
    have hq : countPlaying (s.queue ++ [item]) = countPlaying s.queue := by
      rw [countPlaying, countPlaying, List.countP_append]
      have hz : ([item].countP fun i => i.status = .playing) = 0 := by
        simp [hst]
      rw [hz]
      omega
    refine ⟨?_, fun ht => ?_, ?_⟩
    · show countPlaying (s.queue ++ [item]) ≤ 1
      omega
    · have ht' : s.armedTimer.isSome = true := ht
      have hz := h2 ht'
      show countPlaying (s.queue ++ [item]) = 0
      omega
    · show UniqueIds (s.queue ++ [item])
      exact uniqueIds_append_fresh h3 hfresh
  | armEffect now =>
    by_cases hc1 : ¬ s.gateOpen = true ∨ (playingItem s.queue).isSome = true
    · have happ : applyEvent (.armEffect now) s = s := by
        simp only [applyEvent]
        rw [if_pos hc1]
      rw [happ]
      exact ⟨h1, h2, h3⟩
    · have hpnone : playingItem s.queue = none := by
        cases hp : playingItem s.queue with
        | none => rfl
        | some p =>
          exfalso
          apply hc1
          right
          rw [hp]
          rfl
      have hcount0 : countPlaying s.queue = 0 := (playingItem_none_iff s.queue).1 hpnone
      cases hnp : nextPendingItem s.queue with
      | none =>
        have happ : applyEvent (.armEffect now) s = s := by
          simp only [applyEvent, hnp]
          rw [if_neg hc1]
        rw [happ]
        exact ⟨h1, h2, h3⟩
      | some p =>
        by_cases hsched : s.scheduledItemId = some p.id
        · have happ : applyEvent (.armEffect now) s = s := by
            simp only [applyEvent, hnp]
            rw [if_neg hc1, if_pos hsched]
          rw [happ]
          exact ⟨h1, h2, h3⟩
        · by_cases hmem : p.id ∈ s.playedItemIds
          · have happ : applyEvent (.armEffect now) s =
                { s with queue := s.queue.map fun item =>
                           if item.id = p.id then { item with status := .played } else item,
                         sentPlayed := s.sentPlayed ++ [p.id] } := by
              simp only [applyEvent, hnp]
              rw [if_neg hc1, if_neg hsched, if_pos hmem]
            rw [happ]
            have hle := countPlaying_map_setPlayed s.queue p.id
            refine ⟨?_, fun _ => ?_, ?_⟩
            · show countPlaying (s.queue.map fun item =>
                if item.id = p.id then { item with status := .played } else item) ≤ 1
              omega
            · show countPlaying (s.queue.map fun item =>
                if item.id = p.id then { item with status := .played } else item) = 0
              omega
            · show UniqueIds (s.queue.map fun item =>
                if item.id = p.id then { item with status := .played } else item)
              exact uniqueIds_map _ (fun i => by by_cases hi : i.id = p.id <;> simp [hi]) h3
          · have happ : applyEvent (.armEffect now) s =
                { s with scheduledItemId := some p.id, armedTimer := some p.id,
                         armedDelay := some (computeDelay s.lastCompletedTime now) } := by
              simp only [applyEvent, hnp]
              rw [if_neg hc1, if_neg hsched, if_neg hmem]
            rw [happ]
            exact ⟨h1, fun _ => hcount0, h3⟩
  | timerFire =>
    cases ht : s.armedTimer with
    | none =>
      have happ : applyEvent .timerFire s = s := by
        simp only [applyEvent, ht]
      rw [happ]
      exact ⟨h1, h2, h3⟩
    | some itemId =>
      have hz : countPlaying s.queue = 0 := h2 (by rw [ht]; rfl)
      have happ : applyEvent .timerFire s =
          { s with ttsFinished := false,
                   queue := s.queue.map fun item =>
                     if item.id = itemId then { item with status := .playing } else item,
                   armedTimer := none, armedDelay := none } := by
        simp only [applyEvent, ht]
      rw [happ]
      have hb := countPlaying_setPlaying_le s.queue itemId
      have hc := countP_id_le_one h3 itemId
      refine ⟨?_, fun hsome => ?_, ?_⟩
      · show countPlaying (s.queue.map fun item =>
          if item.id = itemId then { item with status := .playing } else item) ≤ 1
        omega
      · exact absurd hsome (by simp)
      · show UniqueIds (s.queue.map fun item =>
          if item.id = itemId then { item with status := .playing } else item)
        exact uniqueIds_map _ (fun i => by by_cases hi : i.id = itemId <;> simp [hi]) h3
  | ttsEffect =>
    cases hp : playingItem s.queue with
    | none =>
      have happ : applyEvent .ttsEffect s = s := by
        simp only [applyEvent, hp]
      rw [happ]
      exact ⟨h1, h2, h3⟩
    | some p =>
      by_cases hg : ¬ s.gateOpen = true
      · have happ : applyEvent .ttsEffect s = s := by
          simp only [applyEvent, hp]
          rw [if_pos hg]
        rw [happ]
        exact ⟨h1, h2, h3⟩
      · by_cases hseen : s.lastPlayingId = some p.id ∨ p.id ∈ s.playedItemIds
        · have happ : applyEvent .ttsEffect s = s := by
            simp only [applyEvent, hp]
            rw [if_neg hg, if_pos hseen]
          rw [happ]
          exact ⟨h1, h2, h3⟩
        · by_cases hmsg : overlayVolume > 0 ∧ ¬ p.message = ""
          · have happ : applyEvent .ttsEffect s =
                { s with lastPlayingId := some p.id,
                         playedItemIds := p.id :: s.playedItemIds,
                         ttsLog := s.ttsLog ++ [p.id] } := by
              simp only [applyEvent, hp]
              rw [if_neg hg, if_neg hseen, if_pos hmsg]
            rw [happ]
            exact ⟨h1, h2, h3⟩
          · have happ : applyEvent .ttsEffect s =
                { s with lastPlayingId := some p.id,
                         playedItemIds := p.id :: s.playedItemIds,
                         ttsFinished := true } := by
              simp only [applyEvent, hp]
              rw [if_neg hg, if_neg hseen, if_neg hmsg]
            rw [happ]
            exact ⟨h1, h2, h3⟩
  | ttsOnEnd now =>
    cases hl : s.lastPlayingId with
    | none =>
      have happ : applyEvent (.ttsOnEnd now) s =
          { s with lastCompletedTime := now, ttsFinished := true } := by
        simp only [applyEvent, hl]
      rw [happ]
      exact ⟨h1, h2, h3⟩
    | some itemId =>
      have happ : applyEvent (.ttsOnEnd now) s =
          { s with lastCompletedTime := now, ttsFinished := true,
                   sentPlayed := s.sentPlayed ++ [itemId] } := by
        simp only [applyEvent, hl]
      rw [happ]
      exact ⟨h1, h2, h3⟩
  | ttsOnError now => exact ⟨h1, h2, h3⟩
  | alertComplete =>
    cases hp : playingItem s.queue with
    | none =>
      have happ : applyEvent .alertComplete s =
          { s with ttsFinished := true, scheduledItemId := none, lastPlayingId := none } := by
        simp only [applyEvent, hp]
      rw [happ]
      exact ⟨h1, h2, h3⟩
    | some p =>
      have happ : applyEvent .alertComplete s =
          { s with ttsFinished := true, scheduledItemId := none, lastPlayingId := none,
                   queue := s.queue.map fun item =>
                     if item.id = p.id then { item with status := .played } else item,
                   sentPlayed := s.sentPlayed ++ [p.id] } := by
        simp only [applyEvent, hp]
      rw [happ]
      have hle := countPlaying_map_setPlayed s.queue p.id
      refine ⟨?_, fun ht => ?_, ?_⟩
      · show countPlaying (s.queue.map fun item =>
          if item.id = p.id then { item with status := .played } else item) ≤ 1
        omega
      · have ht' : s.armedTimer.isSome = true := ht
        have hz := h2 ht'
        show countPlaying (s.queue.map fun item =>
          if item.id = p.id then { item with status := .played } else item) = 0
        omega
      · show UniqueIds (s.queue.map fun item =>
          if item.id = p.id then { item with status := .played } else item)
        exact uniqueIds_map _ (fun i => by by_cases hi : i.id = p.id <;> simp [hi]) h3
/-- Every state reachable under the restricted alphabet satisfies the
invariant. -/
theorem seqInv_reachSeq {s : OverlayState} (h : ReachSeq s) : SeqInv s := by
  induction h with
  | init =>
    refine ⟨?_, ?_, ?_⟩
    · simp [countPlaying, initOverlay]
    · intro ht
      simp [initOverlay] at ht
    · simp [UniqueIds, initOverlay]
  | next e hr hok ih => exact seqInv_step e hok ih

/-- C1 counterexample: a reachable state with two `playing` records — while
`itemA` is playing (auto-started), handling a force-play `'play'` message for
`itemB` marks it `playing` without demoting `itemA`. -/
theorem mutual_exclusion_cex :
    Reach forcePlayCexState ∧ countPlaying forcePlayCexState.queue = 2 := by
  constructor
  · exact Reach.next _ (Reach.next _ (Reach.next _ (Reach.next _ (Reach.next _ Reach.init))))
  · rfl

/-- C1 (amended): at most one record has status `playing` in every state
reachable from the initial overlay state under append (fresh-id, pending),
Selection arming and timer fire, TTS events, skip, clear, gate-change and
completion events — that is, under every event of the claim's list except
force-play; force-play (`mutual_exclusion_cex`) can produce a second
`playing` record. -/
theorem mutual_exclusion_without_force_play {s : OverlayState} (h : ReachSeq s) :
    countPlaying s.queue ≤ 1 :=
  (seqInv_reachSeq h).1

/-- Witness for `mutual_exclusion_without_force_play` on a concrete
restricted trace. -/
theorem mutual_exclusion_without_force_play_witness :
    countPlaying (step .timerFire (step (.armEffect 5)
      (step (.alertMsg itemA) initOverlay))).queue ≤ 1 :=
  mutual_exclusion_without_force_play
    (ReachSeq.next .timerFire
      (ReachSeq.next (.armEffect 5)
        (ReachSeq.next (.alertMsg itemA) ReachSeq.init ⟨rfl, by simp [initOverlay]⟩)
        trivial)
      trivial)

/-! ### C2: no double-speak -/

/-- `TtsInv` is preserved by every event (including arbitrary queue-snapshot
redeliveries and force-plays): only the TTS effect appends to the log, it is
guarded by `playedItemIds`, and `playedItemIds` never shrinks. -/
theorem ttsInv_step {s : OverlayState} (e : WSEvent) (h : TtsInv s) :
    TtsInv (step e s) := by
  obtain ⟨hsub, hnd⟩ := h
  suffices happ : TtsInv (applyEvent e s) by
    obtain ⟨g1, g2⟩ := happ
    refine ⟨?_, ?_⟩
    · rw [step_ttsLog, step_playedItemIds]
      exact g1
    · rw [step_ttsLog]
      exact g2
  cases e with
  | gateMsg isOpen =>
    by_cases hc : s.gateOpen = true ∧ isOpen = false
    · have happ : applyEvent (.gateMsg isOpen) s =
          { s with gateOpen := isOpen, ttsFinished := true } := by
        simp only [applyEvent]
        rw [if_pos hc]
      rw [happ]
      exact ⟨hsub, hnd⟩
    · have happ : applyEvent (.gateMsg isOpen) s = { s with gateOpen := isOpen } := by
        simp only [applyEvent]
        rw [if_neg hc]
      rw [happ]
      exact ⟨hsub, hnd⟩
  | queueMsg snapshot => exact ⟨hsub, hnd⟩
  | skipMsg now => exact ⟨hsub, hnd⟩
  | clearMsg => exact ⟨hsub, hnd⟩
  | playMsg itemId => exact ⟨hsub, hnd⟩
  | alertMsg item => exact ⟨hsub, hnd⟩
  | armEffect now =>
    by_cases hc1 : ¬ s.gateOpen = true ∨ (playingItem s.queue).isSome = true
    · have happ : applyEvent (.armEffect now) s = s := by
        simp only [applyEvent]
        rw [if_pos hc1]
      rw [happ]
      exact ⟨hsub, hnd⟩
    · cases hnp : nextPendingItem s.queue with
      | none =>
        have happ : applyEvent (.armEffect now) s = s := by
          simp only [applyEvent, hnp]
          rw [if_neg hc1]
        rw [happ]
        exact ⟨hsub, hnd⟩
      | some p =>
        by_cases hsched : s.scheduledItemId = some p.id
        · have happ : applyEvent (.armEffect now) s = s := by
            simp only [applyEvent, hnp]
            rw [if_neg hc1, if_pos hsched]
          rw [happ]
          exact ⟨hsub, hnd⟩
        · by_cases hmem : p.id ∈ s.playedItemIds
          · have happ : applyEvent (.armEffect now) s =
                { s with queue := s.queue.map fun item =>
                           if item.id = p.id then { item with status := .played } else item,
                         sentPlayed := s.sentPlayed ++ [p.id] } := by
              simp only [applyEvent, hnp]
              rw [if_neg hc1, if_neg hsched, if_pos hmem]
            rw [happ]
            exact ⟨hsub, hnd⟩
          · have happ : applyEvent (.armEffect now) s =
                { s with scheduledItemId := some p.id, armedTimer := some p.id,
                         armedDelay := some (computeDelay s.lastCompletedTime now) } := by
              simp only [applyEvent, hnp]
              rw [if_neg hc1, if_neg hsched, if_neg hmem]
            rw [happ]
            exact ⟨hsub, hnd⟩
  | timerFire =>
    cases ht : s.armedTimer with
    | none =>
      have happ : applyEvent .timerFire s = s := by
        simp only [applyEvent, ht]
      rw [happ]
      exact ⟨hsub, hnd⟩
    | some itemId =>
      have happ : applyEvent .timerFire s =
          { s with ttsFinished := false,
                   queue := s.queue.map fun item =>
                     if item.id = itemId then { item with status := .playing } else item,
                   armedTimer := none, armedDelay := none } := by
        simp only [applyEvent, ht]
      rw [happ]
      exact ⟨hsub, hnd⟩
  | ttsEffect =>
    cases hp : playingItem s.queue with
    | none =>
      have happ : applyEvent .ttsEffect s = s := by
        simp only [applyEvent, hp]
      rw [happ]
      exact ⟨hsub, hnd⟩
    | some p =>
      by_cases hg : ¬ s.gateOpen = true
      · have happ : applyEvent .ttsEffect s = s := by
          simp only [applyEvent, hp]
          rw [if_pos hg]
        rw [happ]
        exact ⟨hsub, hnd⟩
      · by_cases hseen : s.lastPlayingId = some p.id ∨ p.id ∈ s.playedItemIds
        · have happ : applyEvent .ttsEffect s = s := by
            simp only [applyEvent, hp]
            rw [if_neg hg, if_pos hseen]
          rw [happ]
          exact ⟨hsub, hnd⟩
        · have hfresh : p.id ∉ s.playedItemIds := fun hmem => hseen (Or.inr hmem)
          have hnotlog : p.id ∉ s.ttsLog := fun hlog => hfresh (hsub p.id hlog)
          by_cases hmsg : overlayVolume > 0 ∧ ¬ p.message = ""
          · have happ : applyEvent .ttsEffect s =
                { s with lastPlayingId := some p.id,
                         playedItemIds := p.id :: s.playedItemIds,
                         ttsLog := s.ttsLog ++ [p.id] } := by
              simp only [applyEvent, hp]
              rw [if_neg hg, if_neg hseen, if_pos hmsg]
            rw [happ]
            refine ⟨?_, ?_⟩
            · intro x hx
              rcases List.mem_append.1 hx with hx | hx
              · exact List.mem_cons_of_mem _ (hsub x hx)
              · rcases List.mem_singleton.1 hx with rfl
                exact List.mem_cons_self _ _
            · refine List.Nodup.append hnd (List.nodup_singleton _) ?_
              intro x hx hx'
              rcases List.mem_singleton.1 hx' with rfl
              exact hnotlog hx
          · have happ : applyEvent .ttsEffect s =
                { s with lastPlayingId := some p.id,
                         playedItemIds := p.id :: s.playedItemIds,
                         ttsFinished := true } := by
              simp only [applyEvent, hp]
              rw [if_neg hg, if_neg hseen, if_neg hmsg]
            rw [happ]
            exact ⟨fun x hx => List.mem_cons_of_mem _ (hsub x hx), hnd⟩
  | ttsOnEnd now =>
    cases hl : s.lastPlayingId with
    | none =>
      have happ : applyEvent (.ttsOnEnd now) s =
          { s with lastCompletedTime := now, ttsFinished := true } := by
        simp only [applyEvent, hl]
      rw [happ]
      exact ⟨hsub, hnd⟩
    | some itemId =>
      have happ : applyEvent (.ttsOnEnd now) s =
          { s with lastCompletedTime := now, ttsFinished := true,
                   sentPlayed := s.sentPlayed ++ [itemId] } := by
        simp only [applyEvent, hl]
      rw [happ]
      exact ⟨hsub, hnd⟩
  | ttsOnError now => exact ⟨hsub, hnd⟩
  | alertComplete =>
    cases hp : playingItem s.queue with
    | none =>
      have happ : applyEvent .alertComplete s =
          { s with ttsFinished := true, scheduledItemId := none, lastPlayingId := none } := by
        simp only [applyEvent, hp]
      rw [happ]
      exact ⟨hsub, hnd⟩
    | some p =>
      have happ : applyEvent .alertComplete s =
          { s with ttsFinished := true, scheduledItemId := none, lastPlayingId := none,
                   queue := s.queue.map fun item =>
                     if item.id = p.id then { item with status := .played } else item,
                   sentPlayed := s.sentPlayed ++ [p.id] } := by
        simp only [applyEvent, hp]
      rw [happ]
      exact ⟨hsub, hnd⟩

/-- Every reachable overlay state satisfies the TTS-log invariant. -/
theorem ttsInv_reach {s : OverlayState} (h : Reach s) : TtsInv s := by
  induction h with
  | init => exact ⟨by simp [initOverlay], by simp [initOverlay]⟩
  | next e hr ih => exact ttsInv_step e ih

/-- C2: (1) in every reachable overlay state — under any message sequence,
including redelivered queue snapshots — no id occurs twice in the log of
`synth.speak` invocations: the presentation task runs at most once per id;
(2) when Selection finds the oldest pending record already in
`playedItemIds`, the record is transitioned to `played` and its completion is
reported upstream (`sendPlayed`), while the TTS log is untouched. -/
theorem no_double_speak :
    (∀ s : OverlayState, Reach s → s.ttsLog.Nodup) ∧
    (∀ (s : OverlayState) (now : Nat) (p : QueueItem),
        s.gateOpen = true → playingItem s.queue = none → nextPendingItem s.queue = some p →
        ¬ s.scheduledItemId = some p.id → p.id ∈ s.playedItemIds →
        (step (.armEffect now) s).queue =
          s.queue.map (fun item =>
            if item.id = p.id then { item with status := .played } else item) ∧
        (step (.armEffect now) s).sentPlayed = s.sentPlayed ++ [p.id] ∧
        (step (.armEffect now) s).ttsLog = s.ttsLog) := by
  constructor
  · intro s h
    exact (ttsInv_reach h).2
  · intro s now p hg hpl hnp hsched hmem
    have hc1 : ¬ (¬ s.gateOpen = true ∨ (playingItem s.queue).isSome = true) := by
      rintro (hg' | hps)
      · exact hg' hg
      · rw [hpl] at hps
        simp at hps
    have happ : applyEvent (.armEffect now) s =
        { s with queue := s.queue.map fun item =>
                   if item.id = p.id then { item with status := .played } else item,
                 sentPlayed := s.sentPlayed ++ [p.id] } := by
      simp only [applyEvent, hnp]
      rw [if_neg hc1, if_neg hsched, if_pos hmem]
    refine ⟨?_, ?_, ?_⟩
    · rw [step_queue, happ]
    · rw [step_sentPlayed, happ]
    · rw [step_ttsLog, happ]

/-- Witness for `no_double_speak`: part (1) at a concrete reachable state that
has actually spoken (`ttsEffect` after auto-start); part (2) at the concrete
redelivery state. -/
theorem no_double_speak_witness :
    (step .ttsEffect gatePlayingState).ttsLog.Nodup ∧
    (step (.armEffect 7) redeliveryState).sentPlayed = redeliveryState.sentPlayed ++ ["a"] :=
  ⟨no_double_speak.1 _
      (Reach.next _ (Reach.next _ (Reach.next _ (Reach.next _ Reach.init)))),
   (no_double_speak.2 redeliveryState 7 itemA rfl rfl rfl (by decide) (by decide)).2.1⟩

/-! ### C3: the minimum display time gate -/

theorem dInv_hideBranch {s : DisplayMachine} {t : Nat} (ht : s.now ≤ t)
    (h : DInv s) : DInv (hideBranch s t) := by
  obtain ⟨h1, h2, h3⟩ := h
  unfold hideBranch
  by_cases hd : s.displayState ≠ DState.hidden
  · rw [if_pos hd]
    exact ⟨by simp, by simp, h3⟩
  · rw [if_neg hd]
    refine ⟨fun hm => (h1 hm).trans ht, fun hx => ?_, h3⟩
    have hdd : s.displayState = DState.hidden := not_not.1 hd
    have hx' : s.displayState = DState.exiting := hx
    rw [hdd] at hx'
    cases hx'

/-- `DInv` is preserved by every time-monotone step. -/
theorem dInv_step {dur : Nat} {s : DisplayMachine} (e : DEvent) (ht : s.now ≤ e.time)
    (h : DInv s) : DInv (dstep dur e s) := by
  obtain ⟨h1, h2, h3⟩ := h
  cases e with
  | itemChange item t =>
    have ht' : s.now ≤ t := ht
    cases item with
    | none => exact dInv_hideBranch ht' ⟨h1, h2, h3⟩
    | some it =>
      show DInv (if it.status ≠ .playing then hideBranch s t
        else if some it.id = s.currentItem then { s with now := t } else _)
      by_cases hst : it.status ≠ Status.playing
      · rw [if_pos hst]
        exact dInv_hideBranch ht' ⟨h1, h2, h3⟩
      · rw [if_neg hst]
        by_cases hcur : some it.id = s.currentItem
        · rw [if_pos hcur]
          exact ⟨fun hm => (h1 hm).trans ht', fun hx => (h2 hx).trans ht', h3⟩
        · rw [if_neg hcur]
          exact ⟨by simp, by simp, h3⟩
  | minTimerFire t =>
    have ht' : s.now ≤ t := ht
    show DInv (if s.minTimerArmed = true ∧ s.minDeadline ≤ t then _ else _)
    by_cases hc : s.minTimerArmed = true ∧ s.minDeadline ≤ t
    · rw [if_pos hc]
      exact ⟨fun _ => hc.2, fun hx => (h2 hx).trans ht', h3⟩
    · rw [if_neg hc]
      exact ⟨fun hm => (h1 hm).trans ht', fun hx => (h2 hx).trans ht', h3⟩
  | ttsStartSig t =>
    have ht' : s.now ≤ t := ht
    exact ⟨fun hm => (h1 hm).trans ht', fun hx => (h2 hx).trans ht', h3⟩
  | ttsEndSig t =>
    have ht' : s.now ≤ t := ht
    exact ⟨fun hm => (h1 hm).trans ht', fun hx => (h2 hx).trans ht', h3⟩
  | ttsErrorSig t =>
    have ht' : s.now ≤ t := ht
    exact ⟨fun hm => (h1 hm).trans ht', fun hx => (h2 hx).trans ht', h3⟩
  | completeCheck t =>
    have ht' : s.now ≤ t := ht
    show DInv (if s.displayState = .visible ∧ s.minTimeElapsed = true ∧
        (waitForTTS = false ∨ s.ttsFinished = true) then _ else _)
    by_cases hc : s.displayState = .visible ∧ s.minTimeElapsed = true ∧
        (waitForTTS = false ∨ s.ttsFinished = true)
    · rw [if_pos hc]
      exact ⟨fun hm => (h1 hm).trans ht', fun _ => (h1 hc.2.1).trans ht', h3⟩
    · rw [if_neg hc]
      exact ⟨fun hm => (h1 hm).trans ht', fun hx => (h2 hx).trans ht', h3⟩
  | exitDone t =>
    have ht' : s.now ≤ t := ht
    show DInv (if s.displayState = .exiting then _ else _)
    by_cases hd : s.displayState = .exiting
    · rw [if_pos hd]
      refine ⟨by simp, by simp, ?_⟩
      intro c hc
      rcases List.mem_append.1 hc with hc | hc
      · exact h3 c hc
      · rcases List.mem_singleton.1 hc with rfl
        exact (h2 hd).trans ht'
    · rw [if_neg hd]
      exact ⟨fun hm => (h1 hm).trans ht', fun hx => (h2 hx).trans ht', h3⟩

/-- Every reachable display-machine state satisfies `DInv`. -/
theorem dInv_dreach {dur : Nat} {s : DisplayMachine} (h : DReach dur s) : DInv s := by
  induction h with
  | init => exact ⟨by simp [dInit], by simp [dInit], by simp [dInit]⟩
  | next e hr ht ih => exact dInv_step e ht ih

/-- C3: the completion check is a no-op unless both the minimum-display timer
has fired and TTS has finished; when all of
visible/`minTimeElapsed`/`ttsFinished` hold it does complete (enters
`exiting`, after which the exit step reports the completion) — so whichever
of the two signals arrives later enables completion; a TTS error is treated
exactly as a TTS finish; and on every time-monotone reachable trace, every
recorded completion happens no earlier than the minimum-display deadline
(show time + `alertDuration`) of its showing. -/
theorem minimum_display_gate (dur : Nat) :
    (∀ (s : DisplayMachine) (t : Nat), ¬ (s.minTimeElapsed = true ∧ s.ttsFinished = true) →
        (dstep dur (.completeCheck t) s).displayState = s.displayState ∧
        (dstep dur (.completeCheck t) s).completions = s.completions) ∧
    (∀ (s : DisplayMachine) (t : Nat), s.displayState = .visible → s.minTimeElapsed = true →
        s.ttsFinished = true → (dstep dur (.completeCheck t) s).displayState = .exiting) ∧
    (∀ (s : DisplayMachine) (t : Nat),
        dstep dur (.ttsErrorSig t) s = dstep dur (.ttsEndSig t) s) ∧
    (∀ (s : DisplayMachine) (t : Nat), s.displayState = .exiting →
        (dstep dur (.exitDone t) s).completions =
          s.completions ++ [(s.currentItem.getD "", s.minDeadline, t)]) ∧
    (∀ s : DisplayMachine, DReach dur s → ∀ c ∈ s.completions, c.2.1 ≤ c.2.2) := by
  refine ⟨?_, ?_, ?_, ?_, ?_⟩
  · intro s t h
    have hc : ¬ (s.displayState = .visible ∧ s.minTimeElapsed = true ∧
        (waitForTTS = false ∨ s.ttsFinished = true)) := by
      rintro ⟨_, hm, ho⟩
      rcases ho with ho | ho
      · simp [waitForTTS] at ho
      · exact h ⟨hm, ho⟩
    constructor
    · show ((if s.displayState = .visible ∧ s.minTimeElapsed = true ∧
          (waitForTTS = false ∨ s.ttsFinished = true) then _ else _ :
            DisplayMachine)).displayState = s.displayState
      rw [if_neg hc]
    · show ((if s.displayState = .visible ∧ s.minTimeElapsed = true ∧
          (waitForTTS = false ∨ s.ttsFinished = true) then _ else _ :
            DisplayMachine)).completions = s.completions
      rw [if_neg hc]
  · intro s t hv hm htts
    show ((if s.displayState = .visible ∧ s.minTimeElapsed = true ∧
        (waitForTTS = false ∨ s.ttsFinished = true) then _ else _ :
          DisplayMachine)).displayState = DState.exiting
    rw [if_pos ⟨hv, hm, Or.inr htts⟩]
  · intro s t
    rfl
  · intro s t hd
    show ((if s.displayState = .exiting then _ else _ : DisplayMachine)).completions = _
    rw [if_pos hd]
  · intro s h
    exact (dInv_dreach h).2.2

/-- Witness for `minimum_display_gate` at concrete states. -/
theorem minimum_display_gate_witness :
    (dstep 5000 (.completeCheck 6000) { dVis with ttsFinished := false }).completions =
      ({ dVis with ttsFinished := false } : DisplayMachine).completions ∧
    (dstep 5000 (.completeCheck 6000) dVis).displayState = DState.exiting ∧
    dstep 5000 (.ttsErrorSig 42) dVis = dstep 5000 (.ttsEndSig 42) dVis ∧
    (dstep 5000 (.exitDone 6100) { dVis with displayState := .exiting }).completions =
      ({ dVis with displayState := .exiting } : DisplayMachine).completions ++
        [("a", 6000, 6100)] ∧
    ∀ c ∈ dInit.completions, c.2.1 ≤ c.2.2 :=
  ⟨((minimum_display_gate 5000).1 { dVis with ttsFinished := false } 6000 (by decide)).2,
   (minimum_display_gate 5000).2.1 dVis 6000 rfl rfl rfl,
   (minimum_display_gate 5000).2.2.1 dVis 42,
   (minimum_display_gate 5000).2.2.2.1 { dVis with displayState := .exiting } 6100 rfl,
   (minimum_display_gate 5000).2.2.2.2 dInit DReach.init⟩

end MinaQueue
